import Mathlib

/-!
Verification of the translation-proxy server (src/server.js and the
unnamed variant src/unnamed/part_000) against its specification.

The embedding models the request pipeline of the `/proxy` route and the
`/status` route. HTML documents are modelled as trees of element and
text nodes, following the shape cheerio (htmlparser2/domhandler) gives
them: an element node carries a tag name and an attribute association
list; a text node carries its character data. `cheerio.load` normalises
a full document into an html element containing head and body, so a
parsed document is modelled as the html attribute list plus the child
lists of head and body.
-/

namespace TranslationProxy

/-- A DOM node as produced by the HTML parser: either a text node
(type "text" in domhandler, carrying `data`) or an element with a tag
name, an attribute list, and children. Text inside script and style
elements is a text child of the script or style element node. -/
inductive DNode where
  | text (data : String)
  | elem (tag : String) (attrs : List (String × String)) (children : List DNode)

/-- A parsed document after `cheerio.load` normalisation: the attribute
list of the root html element, and the children of head and of body. -/
structure Doc where
  htmlAttrs : List (String × String)
  headChildren : List DNode
  bodyChildren : List DNode

/-- Attribute lookup, `$(el).attr(name)`: the value if the attribute is
present (possibly the empty string), otherwise undefined (`none`). -/
def getAttr (attrs : List (String × String)) (name : String) : Option String :=
  match attrs with
  | [] => none
  | (k, v) :: rest => if k = name then some v else getAttr rest name

/-- Attribute update, `$(el).attr(name, value)`: replaces the value of an existing
attribute, or appends the attribute if absent. -/
def setAttr (attrs : List (String × String)) (name value : String) :
    List (String × String) :=
  match attrs with
  | [] => [(name, value)]
  | (k, v) :: rest =>
      if k = name then (k, value) :: rest else (k, v) :: setAttr rest name value

/-! ## The /status route

```
const ready = !!translator;
const elapsed = Date.now() - loadStart;
const remaining = Math.max(0, estimatedLoadTime - elapsed) / 1000;
res.json(\x7b ready, remaining: Math.round(remaining) \x7d);
```

`estimatedLoadTime` is 300000 in src/server.js and 120000 in the
unnamed variant; the handler is otherwise identical, so it is modelled
with the estimate as a parameter. `Math.max(0, e)` of an integer is a
non-negative integer n at most 300000, for which `Math.round(n / 1000)`
computes exactly round-half-up of the rational n / 1000 (the float
quotient is correctly rounded and no half-way boundary can be crossed),
i.e. `(n + 500) / 1000` in integer floor division. -/

/-- Rounding, `Math.round(n / 1000)`, for a non-negative integer number of
milliseconds `n`: round half up, as integer arithmetic. -/
def roundMsToSeconds (n : Int) : Int := (n + 500).fdiv 1000

/-- The GET /status handler: `(ready, remaining)` from whether the
translator is loaded, the estimate constant, and the current and load
start timestamps (milliseconds). -/
def statusHandler (translatorLoaded : Bool) (estimatedLoadTime nowMs loadStart : Int) :
    Bool × Int :=
  let ready := translatorLoaded
  let elapsed := nowMs - loadStart
  let remaining := max 0 (estimatedLoadTime - elapsed)
  (ready, roundMsToSeconds remaining)

/-! ## JavaScript string primitives

The route handlers use `String.prototype.startsWith`, truthiness of
possibly-undefined strings, `String.prototype.includes`, and
`String.prototype.trim`. They are modelled over character lists.
`trim` is modelled by `jsTrim` below, removing leading and trailing
whitespace (the difference between the ECMAScript whitespace set and
`Char.isWhitespace` is immaterial to the claims). -/

/-- JS `s.trim()`: drop leading and trailing whitespace. -/
def jsTrim (s : String) : String :=
  String.mk
    (((s.data.dropWhile fun c => c.isWhitespace).reverse.dropWhile
      fun c => c.isWhitespace).reverse)

/-- Whether `haystackChars` begins with `patternChars`: the JS
`haystack.startsWith(pattern)` on exploded strings. -/
def startsList : List Char → List Char → Bool
  | [], _ => true
  | _ :: _, [] => false
  | p :: ps, c :: cs => p = c && startsList ps cs

/-- JS `hay.includes(needle)` on exploded strings. -/
def infixList (needleChars : List Char) : List Char → Bool
  | [] => needleChars.isEmpty
  | c :: cs => startsList needleChars (c :: cs) || infixList needleChars cs

/-- JS truthiness of a string that may be undefined: undefined and the
empty string are falsy, every other string is truthy. -/
def truthyStr : Option String → Bool
  | none => false
  | some s => !(s == "")

/-! ## encodeURIComponent and the query-string parse

The rewriter builds the attribute value
`/proxy?url=$\x7bencodeURIComponent(link)\x7d&lang=$\x7btargetLang\x7d`. The
ECMAScript `encodeURIComponent` leaves the unreserved set
(ASCII letters, digits, and `- _ . ! ~ * ( )` and the apostrophe)
intact and percent-encodes the UTF-8 bytes of every other character
with uppercase hexadecimal digits. The parse direction (the spec reads
"parseable back into the original URL and target language") is the
standard query-string parse: take the part after the first question
mark, split it on ampersands, split each pair at its first equals sign,
and percent-decode the values. -/

/-- The UTF-8 byte sequence of one character. -/
def utf8Bytes (c : Char) : List Nat :=
  let v := c.toNat
  if v < 0x80 then [v]
  else if v < 0x800 then [0xC0 + v / 0x40, 0x80 + v % 0x40]
  else if v < 0x10000 then
    [0xE0 + v / 0x1000, 0x80 + v / 0x40 % 0x40, 0x80 + v % 0x40]
  else
    [0xF0 + v / 0x40000, 0x80 + v / 0x1000 % 0x40, 0x80 + v / 0x40 % 0x40,
      0x80 + v % 0x40]

/-- Membership in the unreserved set of `encodeURIComponent`:
ASCII alphanumerics and `- _ . ! ~ * ( )` and the apostrophe
(code points 45, 95, 46, 33, 126, 42, 39, 40, 41). -/
def uriUnreservedChar (c : Char) : Bool :=
  c.isAlphanum || [45, 95, 46, 33, 126, 42, 39, 40, 41].contains c.toNat

/-- Uppercase hexadecimal digit of a value below 16. -/
def hexDigitChar (n : Nat) : Char :=
  if n < 10 then Char.ofNat (48 + n) else Char.ofNat (55 + n)

/-- Percent-encoding of one byte, `%XX` with uppercase hex digits. -/
def percentEncodeByte (b : Nat) : List Char :=
  ['%', hexDigitChar (b / 16), hexDigitChar (b % 16)]

/-- One character of `encodeURIComponent` output. -/
def encodeCharURI (c : Char) : List Char :=
  if uriUnreservedChar c then [c] else (utf8Bytes c).flatMap percentEncodeByte

/-- ECMAScript `encodeURIComponent`. -/
def encodeURIComponent (s : String) : String :=
  String.mk (s.data.flatMap encodeCharURI)

/-- Numeric value of a hexadecimal digit character. -/
def hexVal (c : Char) : Option Nat :=
  if 48 ≤ c.toNat ∧ c.toNat ≤ 57 then some (c.toNat - 48)
  else if 65 ≤ c.toNat ∧ c.toNat ≤ 70 then some (c.toNat - 55)
  else if 97 ≤ c.toNat ∧ c.toNat ≤ 102 then some (c.toNat - 87)
  else none

/-- First phase of `decodeURIComponent`: turn the string into the byte
sequence it denotes, decoding `%XX` escapes and taking the UTF-8 bytes
of literal characters. -/
def percentDecodeBytes : List Char → Option (List Nat)
  | [] => some []
  | c :: cs =>
      if c = '%' then
        match cs with
        | h1 :: h2 :: rest =>
            match hexVal h1, hexVal h2 with
            | some d1, some d2 =>
                match percentDecodeBytes rest with
                | some bs => some ((16 * d1 + d2) :: bs)
                | none => none
            | _, _ => none
        | _ => none
      else
        match percentDecodeBytes cs with
        | some bs => some (utf8Bytes c ++ bs)
        | none => none

/-- UTF-8 continuation byte. -/
def contByte (b : Nat) : Bool := 0x80 ≤ b && b < 0xC0

mutual

/-- Second phase of `decodeURIComponent`: UTF-8 decoding of the byte
sequence, dispatching on the class of the lead byte. -/
def utf8DecodeChars : List Nat → Option (List Char)
  | [] => some []
  | b :: bs =>
      if b < 0x80 then (utf8DecodeChars bs).map (fun cs => Char.ofNat b :: cs)
      else if b < 0xC0 then none
      else if b < 0xE0 then utf8DecodeTwo b bs
      else if b < 0xF0 then utf8DecodeThree b bs
      else if b < 0xF8 then utf8DecodeFour b bs
      else none

/-- A two-byte sequence: one continuation byte after the lead byte. -/
def utf8DecodeTwo (b : Nat) : List Nat → Option (List Char)
  | b1 :: rest =>
      if contByte b1 then
        (utf8DecodeChars rest).map
          (fun cs => Char.ofNat ((b - 0xC0) * 0x40 + (b1 - 0x80)) :: cs)
      else none
  | [] => none

/-- A three-byte sequence: two continuation bytes after the lead byte. -/
def utf8DecodeThree (b : Nat) : List Nat → Option (List Char)
  | b1 :: b2 :: rest =>
      if contByte b1 && contByte b2 then
        (utf8DecodeChars rest).map
          (fun cs =>
            Char.ofNat ((b - 0xE0) * 0x1000 + (b1 - 0x80) * 0x40 + (b2 - 0x80)) :: cs)
      else none
  | _ => none

/-- A four-byte sequence: three continuation bytes after the lead
byte. -/
def utf8DecodeFour (b : Nat) : List Nat → Option (List Char)
  | b1 :: b2 :: b3 :: rest =>
      if contByte b1 && contByte b2 && contByte b3 then
        (utf8DecodeChars rest).map
          (fun cs =>
            Char.ofNat
              ((b - 0xF0) * 0x40000 + (b1 - 0x80) * 0x1000 + (b2 - 0x80) * 0x40 +
                (b3 - 0x80)) :: cs)
      else none
  | _ => none

end

/-- Full `decodeURIComponent`: percent-decode to bytes, then UTF-8 decode. -/
def decodeURIComponent (s : String) : Option String :=
  match percentDecodeBytes s.data with
  | none => none
  | some bs => (utf8DecodeChars bs).map String.mk

/-- Split a character list on a separator character; the separator is
dropped and empty groups are kept. -/
def splitOnChar (sep : Char) : List Char → List (List Char)
  | [] => [[]]
  | c :: cs =>
      if c = sep then [] :: splitOnChar sep cs
      else
        match splitOnChar sep cs with
        | [] => [[c]]
        | g :: gs => (c :: g) :: gs

/-- Split at the first occurrence of a separator: the part before it
and, when the separator occurs, the part after it. -/
def breakAtChar (sep : Char) : List Char → List Char × Option (List Char)
  | [] => ([], none)
  | c :: cs =>
      if c = sep then ([], some cs)
      else
        let r := breakAtChar sep cs
        (c :: r.1, r.2)

/-- Remove a literal leading pattern, or fail. -/
def stripLeading : List Char → List Char → Option (List Char)
  | [], cs => some cs
  | _ :: _, [] => none
  | p :: ps, c :: cs => if c = p then stripLeading ps cs else none

/-- One `key=value` pair of a query string; a pair without an equals
sign denotes the empty value, as in URLSearchParams. -/
def queryPairOf (cs : List Char) : String × String :=
  let r := breakAtChar '=' cs
  (String.mk r.1, String.mk (r.2.getD []))

/-- First value bound to a name in a parsed query-pair list. -/
def lookupParam (name : String) : List (String × String) → Option String
  | [] => none
  | (k, v) :: rest => if k = name then some v else lookupParam name rest

/-- Parse an attribute value as a proxy-relative URL: it must start
with the literal `/proxy?`; the rest is parsed as a query string and
the percent-decoded `url` and `lang` values are returned. -/
def parseProxyRelative (s : String) : Option (String × String) :=
  match stripLeading ("/proxy?".data) s.data with
  | none => none
  | some q =>
      let pairs := (splitOnChar '&' q).map queryPairOf
      match lookupParam "url" pairs, lookupParam "lang" pairs with
      | some u, some l =>
          match decodeURIComponent u, decodeURIComponent l with
          | some u2, some l2 => some (u2, l2)
          | _, _ => none
      | _, _ => none

/-! ## Language comparison

src/server.js:
```
const pageLang = $('html').attr('lang') || 'und';
if (pageLang !== targetLang.split('_')[0]) \x7b ... translate ... \x7d
```
src/unnamed/part_000 compares `pageLang !== targetLang` directly. -/

/-- The declared page language: the lang attribute of the root html
element, or the string und when absent (`|| 'und'`; an empty lang
attribute is falsy and also yields und). -/
def pageLangOf (doc : Doc) : String :=
  match getAttr doc.htmlAttrs "lang" with
  | none => "und"
  | some l => if l = "" then "und" else l

/-- The translation guard of src/server.js: translate when the page
language differs from the primary subtag of the target code
(`targetLang.split('_')[0]`). -/
def needsTranslationNLLB (pageLang targetLang : String) : Bool :=
  pageLang ≠ String.mk ((splitOnChar '_' targetLang.data).headD [])

/-- The translation guard of src/unnamed/part_000: translate when the
page language differs from the target code exactly. -/
def needsTranslationExact (pageLang targetLang : String) : Bool :=
  pageLang ≠ targetLang

/-! ## The text-node walk

```
const textNodes = [];
$('body').find('*').contents().each(function () \x7b
  if (this.type === 'text' && this.data.trim()) \x7b textNodes.push(this); \x7d
\x7d);
for (const node of textNodes) \x7b
  const translated = await translator(node.data, ...);
  node.data = translated[0].translation_text;
\x7d
```

`$('body').find('*')` matches the element descendants of body, in
depth-first document order; `.contents()` concatenates the child lists
of those elements. A text node is therefore collected exactly when its
parent is an element strictly below body and its trimmed data is
non-empty; text children of body itself are never visited. The engine
is opaque: one call per node, so the loop is modelled by an arbitrary
function `engine : String → String` applied to the data of each
collected node. Mutation is by reference into the parsed tree, so the
net effect on the serialized tree is the structural replacement
performed by `translateAll` below the element children of body. -/

/-- The child list of a node (`.contents()` of one element). -/
def childrenOf : DNode → List DNode
  | .text _ => []
  | .elem _ _ cs => cs

/-- The walker selection `$('body').find('*')` from a child list: all element nodes strictly
below the root, in depth-first document order. -/
def findStar : List DNode → List DNode
  | [] => []
  | .text _ :: rest => findStar rest
  | .elem t a cs :: rest => .elem t a cs :: (findStar cs ++ findStar rest)

/-- The filter of the collection phase on a node list: the data of its
text nodes whose trimmed data is non-empty
(`this.type === 'text' && this.data.trim()`). -/
def directTexts (ns : List DNode) : List String :=
  ns.filterMap fun n =>
    match n with
    | .text s => if jsTrim s ≠ "" then some s else none
    | _ => none

/-- The collection phase applied to the walker output: the matched
elements, their contents concatenated, filtered down to the text nodes
with non-empty trimmed data. -/
def collectTexts (bodyChildren : List DNode) : List String :=
  directTexts ((findStar bodyChildren).flatMap childrenOf)

mutual

/-- In-place effect of the translate loop on one subtree rooted at an
element below body: every text node with non-empty trimmed data gets
the engine output for its data, everything else is untouched. -/
def translateAll (engine : String → String) : DNode → DNode
  | .text s => if jsTrim s ≠ "" then .text (engine s) else .text s
  | .elem t a cs => .elem t a (translateList engine cs)

/-- Map of `translateAll` over each node of a child list. -/
def translateList (engine : String → String) : List DNode → List DNode
  | [] => []
  | n :: ns => translateAll engine n :: translateList engine ns

end

/-- In-place effect of the whole translate loop on the child list of
body: text children of body itself are not collected by
`$('body').find('*').contents()` and stay untouched; each element child
of body is an element strictly below body, so its whole subtree is
translated. -/
def translateBody (engine : String → String) : List DNode → List DNode
  | [] => []
  | .text s :: rest => .text s :: translateBody engine rest
  | .elem t a cs :: rest =>
      translateAll engine (.elem t a cs) :: translateBody engine rest

/-! ## The link rewriter

```
const baseUrl = new URL(originalUrl);
$('a[href], link[href], script[src], img[src], form[action]').each(function () \x7b
  const attr = $(this).attr('href') ? 'href' : $(this).attr('src') ? 'src' : 'action';
  let link = $(this).attr(attr);
  if (link && !link.startsWith('http')) \x7b
    link = baseUrl.origin + (link.startsWith('/') ? link : '/' + link);
  \x7d
  if (link.startsWith('http')) \x7b
    $(this).attr(attr, `/proxy?url=$\x7bencodeURIComponent(link)\x7d&lang=$\x7btargetLang\x7d`);
  \x7d
\x7d);
$('form').attr('method', 'POST');
```

`baseUrl.origin` of url-parse is passed in as the `origin` parameter.
When the chosen attribute is absent, `link` is undefined: the guarded
first if is skipped, and `link.startsWith('http')` throws a TypeError,
which the route catch turns into a 500 response. -/

/-- Errors that abort the /proxy try block. -/
inductive PipelineError where
  /-- A TypeError from calling a method on undefined. -/
  | typeErrorUndefined
  /-- The axios promise rejected because the default `validateStatus`
  refused a non-2xx upstream status. -/
  | upstreamStatus (status : Nat)
  deriving Repr, DecidableEq

/-- The attribute-name ternary: JS truthiness, so an attribute holding
the empty string falls through to the next alternative. -/
def chooseAttr (attrs : List (String × String)) : String :=
  if truthyStr (getAttr attrs "href") then "href"
  else if truthyStr (getAttr attrs "src") then "src"
  else "action"

/-- The CSS selector
`a[href], link[href], script[src], img[src], form[action]`: attribute
presence, regardless of the value. -/
def isSelected (tag : String) (attrs : List (String × String)) : Bool :=
  (tag = "a" && (getAttr attrs "href").isSome) ||
  (tag = "link" && (getAttr attrs "href").isSome) ||
  (tag = "script" && (getAttr attrs "src").isSome) ||
  (tag = "img" && (getAttr attrs "src").isSome) ||
  (tag = "form" && (getAttr attrs "action").isSome)

/-- The rewritten attribute value for an absolute link. -/
def proxyWrap (targetLang link : String) : String :=
  "/proxy?url=" ++ encodeURIComponent link ++ "&lang=" ++ targetLang

/-- The body of the each callback on the chosen attribute value:
`none` for undefined. Returns the new value when the attribute is
assigned, `none` when it is left alone, and a TypeError when the value
is undefined. -/
def rewriteChosen (origin targetLang : String) :
    Option String → Except PipelineError (Option String)
  | none => .error .typeErrorUndefined
  | some l =>
      let l2 :=
        if !(l == "") && !startsList ("http".data) l.data then
          origin ++ (if startsList ("/".data) l.data then l else "/" ++ l)
        else l
      if startsList ("http".data) l2.data then
        .ok (some (proxyWrap targetLang l2))
      else .ok none

/-- The each callback on one element: when the element is matched by
the selector, rewrite the chosen attribute. -/
def rewriteElemAttrs (origin targetLang tag : String)
    (attrs : List (String × String)) :
    Except PipelineError (List (String × String)) :=
  if isSelected tag attrs then
    let a := chooseAttr attrs
    match rewriteChosen origin targetLang (getAttr attrs a) with
    | .error e => .error e
    | .ok none => .ok attrs
    | .ok (some v) => .ok (setAttr attrs a v)
  else .ok attrs

mutual

/-- The rewriting pass over one subtree, in document order; the first
TypeError aborts the pass (and with it the route handler). -/
def rewriteNode (origin targetLang : String) :
    DNode → Except PipelineError DNode
  | .text s => .ok (.text s)
  | .elem t a cs =>
      match rewriteElemAttrs origin targetLang t a with
      | .error e => .error e
      | .ok a2 =>
          match rewriteList origin targetLang cs with
          | .error e => .error e
          | .ok cs2 => .ok (.elem t a2 cs2)

/-- Map of `rewriteNode` over each node of a child list. -/
def rewriteList (origin targetLang : String) :
    List DNode → Except PipelineError (List DNode)
  | [] => .ok []
  | n :: ns =>
      match rewriteNode origin targetLang n with
      | .error e => .error e
      | .ok n2 =>
          match rewriteList origin targetLang ns with
          | .error e => .error e
          | .ok ns2 => .ok (n2 :: ns2)

end

mutual

/-- Form normalisation, `$('form').attr('method', 'POST')`: force the method attribute of
every form element to POST. -/
def forcePost : DNode → DNode
  | .text s => .text s
  | .elem t a cs =>
      .elem t (if t = "form" then setAttr a "method" "POST" else a)
        (forcePostList cs)

/-- Map of `forcePost` over each node of a child list. -/
def forcePostList : List DNode → List DNode
  | [] => []
  | n :: ns => forcePost n :: forcePostList ns

end

/-- The HTML branch of the /proxy handler after parsing: the language
check and optional translate walk, then the link rewriter over the
whole document (the selector also matches link and script elements in
head), then the form-method forcing. The comparison function is
`needsTranslationNLLB` for src/server.js and `needsTranslationExact`
for src/unnamed/part_000. -/
def processHtml (cmp : String → String → Bool) (engine : String → String)
    (origin targetLang : String) (doc : Doc) : Except PipelineError Doc :=
  let pageLang := pageLangOf doc
  let body1 :=
    if cmp pageLang targetLang then translateBody engine doc.bodyChildren
    else doc.bodyChildren
  match rewriteList origin targetLang doc.headChildren with
  | .error e => .error e
  | .ok head2 =>
      match rewriteList origin targetLang body1 with
      | .error e => .error e
      | .ok body2 =>
          .ok ⟨doc.htmlAttrs, forcePostList head2, forcePostList body2⟩

/-! ## The /proxy route around the HTML branch

```
const response = await axios(\x7b method, url: originalUrl, ... \x7d);
if (!response.headers['content-type'].includes('text/html')) \x7b
  return res.send(response.data);
\x7d
... parse, translate, rewrite ...
res.send($.html());
\x7d catch (error) \x7b
  res.status(500).send('Error proxying: ' + error.message);
\x7d
```

axios rejects the promise when its default `validateStatus` refuses the
upstream status (anything outside 200..299), so a non-2xx upstream
response reaches the catch, not the pass-through. When the upstream
sends no content-type header, `response.headers['content-type']` is
undefined and `.includes` on it throws a TypeError, which also reaches
the catch. The 400 guard for a missing url parameter and the 503 guard
for an unloaded translator run before the try block and are not part
of these claims; the HTML parser is opaque and passed in as
`parseHtml`. -/

/-- What the upstream returned: status, the optional content-type
header, and the body. -/
structure UpstreamResponse where
  status : Nat
  contentType : Option String
  body : String

/-- The response the /proxy route sends. -/
inductive ProxyResponse where
  /-- Pass-through, `res.send(response.data)`: the upstream body verbatim. -/
  | passThrough (body : String)
  /-- Success, `res.send($.html())`: the transformed document, status 200. -/
  | page (doc : Doc)
  /-- Failure, `res.status(500).send('Error proxying: ' + error.message)`. -/
  | proxyError (e : PipelineError)

/-- The axios call: the default `validateStatus` accepts exactly the
2xx statuses and rejects the promise otherwise. -/
def axiosValidateStatus (resp : UpstreamResponse) :
    Except PipelineError UpstreamResponse :=
  if 200 ≤ resp.status ∧ resp.status < 300 then .ok resp
  else .error (.upstreamStatus resp.status)

/-- Classification, `response.headers['content-type'].includes('text/html')`: a
TypeError when the header is absent. -/
def classifyHtml : Option String → Except PipelineError Bool
  | none => .error .typeErrorUndefined
  | some ct => .ok (infixList ("text/html".data) ct.data)

/-- The try block of the /proxy route, with the catch folded in as the
error case. -/
def handleProxy (cmp : String → String → Bool) (engine : String → String)
    (origin targetLang : String) (parseHtml : String → Doc)
    (resp : UpstreamResponse) : ProxyResponse :=
  match axiosValidateStatus resp with
  | .error e => .proxyError e
  | .ok r =>
      match classifyHtml r.contentType with
      | .error e => .proxyError e
      | .ok false => .passThrough r.body
      | .ok true =>
          match processHtml cmp engine origin targetLang (parseHtml r.body) with
          | .error e => .proxyError e
          | .ok d => .page d

/-! ## Observation functions for the theorems -/

/-- The data of every text node of a child list, in document order. -/
def allTexts : List DNode → List String
  | [] => []
  | .text s :: rest => s :: allTexts rest
  | .elem _ _ cs :: rest => allTexts cs ++ allTexts rest

mutual

/-- A node with text data and attribute values erased: what must stay
fixed when a pass may only change text or only change attributes. -/
def shapeOf : DNode → DNode
  | .text _ => .text ""
  | .elem t _ cs => .elem t [] (shapeList cs)

/-- Map of `shapeOf` over each node of a child list. -/
def shapeList : List DNode → List DNode
  | [] => []
  | n :: ns => shapeOf n :: shapeList ns

end

/-- The text nodes of a child list in document order, each tagged with
whether the walk collects it: the flag is true exactly when the node
sits below some element of the list (the argument flag starts false at
the children of body, whose own text children are not collected) and
its trimmed data is non-empty. -/
def taggedTexts (belowElem : Bool) : List DNode → List (String × Bool)
  | [] => []
  | .text s :: rest => (s, belowElem && jsTrim s ≠ "") :: taggedTexts belowElem rest
  | .elem _ _ cs :: rest => taggedTexts true cs ++ taggedTexts belowElem rest

/-- The data of every text node of one subtree, in document order. -/
def nodeTexts : DNode → List String
  | .text s => [s]
  | .elem _ _ cs => allTexts cs

/-- A plain language-code character: ASCII alphanumeric or the
underscore. The language codes the system uses (fr, en, und, fra_Latn,
eng_Latn) consist of these. -/
def isLangChar (c : Char) : Bool := c.isAlphanum || c = '_'

end TranslationProxy

namespace TranslationProxy

/-- C9: every /status response reports `remaining` equal to
max(0, estimatedDurationMs − elapsedMs) / 1000 rounded to whole seconds,
the value is never negative, and it does not depend on whether the model
has finished loading. -/
theorem status_remaining_formula (loaded : Bool) (est nowMs loadStart : Int) :
    (statusHandler loaded est nowMs loadStart).2 =
      (max 0 (est - (nowMs - loadStart)) + 500).fdiv 1000 ∧
    0 ≤ (statusHandler loaded est nowMs loadStart).2 ∧
    (statusHandler loaded est nowMs loadStart).2 =
      (statusHandler (!loaded) est nowMs loadStart).2 := by
  refine ⟨rfl, ?_, rfl⟩
  have h : (0 : Int) ≤ max 0 (est - (nowMs - loadStart)) + 500 := by
    have := le_max_left 0 (est - (nowMs - loadStart))
    omega
  exact Int.fdiv_nonneg h (by norm_num)

end TranslationProxy

namespace TranslationProxy

/-! ## Round-trip of encodeURIComponent -/

theorem char_toNat_lt_uniMax (c : Char) : c.toNat < 1114112 := by
  have h := c.valid
  rcases h with h | ⟨_, h2⟩
  · exact Nat.lt_trans h (by norm_num)
  · exact h2

theorem utf8Bytes_lt (c : Char) : ∀ b ∈ utf8Bytes c, b < 256 := by
  have hv := char_toNat_lt_uniMax c
  intro b hb
  by_cases h1 : c.toNat < 128
  · simp [utf8Bytes, h1] at hb
    omega
  · by_cases h2 : c.toNat < 2048
    · simp [utf8Bytes, h1, h2] at hb
      rcases hb with hb | hb <;> omega
    · by_cases h3 : c.toNat < 65536
      · simp [utf8Bytes, h1, h2, h3] at hb
        rcases hb with hb | hb | hb <;> omega
      · simp [utf8Bytes, h1, h2, h3] at hb
        rcases hb with hb | hb | hb | hb <;> omega

theorem hexVal_hexDigitChar : ∀ d : Nat, d < 16 → hexVal (hexDigitChar d) = some d := by
  decide

theorem percentDecodeBytes_encByte (b : Nat) (hb : b < 256) (t : List Char) :
    percentDecodeBytes (percentEncodeByte b ++ t) =
      (percentDecodeBytes t).map (fun bs => b :: bs) := by
  show percentDecodeBytes ('%' :: hexDigitChar (b / 16) :: hexDigitChar (b % 16) :: t) = _
  rw [percentDecodeBytes]
  simp only [reduceIte]
  rw [hexVal_hexDigitChar (b / 16) (by omega), hexVal_hexDigitChar (b % 16) (by omega)]
  have hub : 16 * (b / 16) + b % 16 = b := by omega
  cases h : percentDecodeBytes t <;> simp [h, hub]

theorem percentDecodeBytes_encBytes (bs : List Nat) (h : ∀ b ∈ bs, b < 256)
    (t : List Char) :
    percentDecodeBytes (bs.flatMap percentEncodeByte ++ t) =
      (percentDecodeBytes t).map (fun l => bs ++ l) := by
  induction bs with
  | nil => cases ht : percentDecodeBytes t <;> simp [ht]
  | cons b rest ih =>
      simp only [List.flatMap_cons, List.append_assoc]
      rw [percentDecodeBytes_encByte b (h b (List.mem_cons_self b rest)) _]
      rw [ih (fun x hx => h x (List.mem_cons_of_mem b hx))]
      cases ht : percentDecodeBytes t <;> simp [ht]

theorem uriUnreservedChar_pct : uriUnreservedChar '%' = false := by decide

theorem percentDecodeBytes_encChar (c : Char) (t : List Char) :
    percentDecodeBytes (encodeCharURI c ++ t) =
      (percentDecodeBytes t).map (fun l => utf8Bytes c ++ l) := by
  unfold encodeCharURI
  split
  case isTrue hres =>
    have hne : ¬(c = '%') := by
      intro he
      rw [he, uriUnreservedChar_pct] at hres
      exact Bool.false_ne_true hres
    show percentDecodeBytes (c :: t) = _
    rw [percentDecodeBytes.eq_def]
    dsimp only
    rw [if_neg hne]
    cases ht : percentDecodeBytes t <;> simp [ht]
  case isFalse =>
    exact percentDecodeBytes_encBytes (utf8Bytes c) (utf8Bytes_lt c) t

theorem percentDecodeBytes_enc (cs : List Char) :
    percentDecodeBytes (cs.flatMap encodeCharURI) = some (cs.flatMap utf8Bytes) := by
  induction cs with
  | nil => rfl
  | cons c rest ih =>
      simp only [List.flatMap_cons]
      rw [percentDecodeBytes_encChar c _, ih]
      rfl

theorem percentDecodeBytes_noPct (cs : List Char) (h : ∀ c ∈ cs, ¬(c = '%')) :
    percentDecodeBytes cs = some (cs.flatMap utf8Bytes) := by
  induction cs with
  | nil => rfl
  | cons c rest ih =>
      rw [percentDecodeBytes.eq_def]
      dsimp only
      rw [if_neg (h c (List.mem_cons_self c rest))]
      rw [ih (fun x hx => h x (List.mem_cons_of_mem c hx))]
      simp

theorem utf8Bytes_one (c : Char) (h1 : c.toNat < 128) : utf8Bytes c = [c.toNat] := by
  unfold utf8Bytes
  rw [if_pos h1]

theorem utf8Bytes_two (c : Char) (h1 : ¬(c.toNat < 128)) (h2 : c.toNat < 2048) :
    utf8Bytes c = [192 + c.toNat / 64, 128 + c.toNat % 64] := by
  unfold utf8Bytes
  rw [if_neg h1, if_pos h2]

theorem utf8Bytes_three (c : Char) (h1 : ¬(c.toNat < 128)) (h2 : ¬(c.toNat < 2048))
    (h3 : c.toNat < 65536) :
    utf8Bytes c = [224 + c.toNat / 4096, 128 + c.toNat / 64 % 64, 128 + c.toNat % 64] := by
  unfold utf8Bytes
  rw [if_neg h1, if_neg h2, if_pos h3]

theorem utf8Bytes_four (c : Char) (h1 : ¬(c.toNat < 128)) (h2 : ¬(c.toNat < 2048))
    (h3 : ¬(c.toNat < 65536)) :
    utf8Bytes c = [240 + c.toNat / 262144, 128 + c.toNat / 4096 % 64, 128 + c.toNat / 64 % 64,
      128 + c.toNat % 64] := by
  unfold utf8Bytes
  rw [if_neg h1, if_neg h2, if_neg h3]

theorem utf8DecodeChars_encChar (c : Char) (bs : List Nat) :
    utf8DecodeChars (utf8Bytes c ++ bs) = (utf8DecodeChars bs).map (fun l => c :: l) := by
  have hv := char_toNat_lt_uniMax c
  by_cases h1 : c.toNat < 128
  · rw [utf8Bytes_one c h1]
    show utf8DecodeChars (c.toNat :: bs) = _
    rw [utf8DecodeChars]
    rw [if_pos h1]
    rw [Char.ofNat_toNat]
  · by_cases h2 : c.toNat < 2048
    · rw [utf8Bytes_two c h1 h2]
      show utf8DecodeChars ((192 + c.toNat / 64) :: (128 + c.toNat % 64) :: bs) = _
      rw [utf8DecodeChars]
      rw [if_neg (by omega), if_neg (by omega), if_pos (by omega)]
      rw [utf8DecodeTwo]
      rw [if_pos (show contByte (128 + c.toNat % 64) = true by simp [contByte]; omega)]
      have harg : (192 + c.toNat / 64 - 192) * 64 + (128 + c.toNat % 64 - 128) = c.toNat := by
        omega
      rw [harg, Char.ofNat_toNat]
    · by_cases h3 : c.toNat < 65536
      · rw [utf8Bytes_three c h1 h2 h3]
        show utf8DecodeChars
            ((224 + c.toNat / 4096) :: (128 + c.toNat / 64 % 64) :: (128 + c.toNat % 64) :: bs) = _
        rw [utf8DecodeChars]
        rw [if_neg (by omega), if_neg (by omega), if_neg (by omega), if_pos (by omega)]
        rw [utf8DecodeThree]
        rw [if_pos (show (contByte (128 + c.toNat / 64 % 64) && contByte (128 + c.toNat % 64)) = true by
          simp [contByte]; omega)]
        have harg : (224 + c.toNat / 4096 - 224) * 4096 + (128 + c.toNat / 64 % 64 - 128) * 64 +
            (128 + c.toNat % 64 - 128) = c.toNat := by omega
        rw [harg, Char.ofNat_toNat]
      · rw [utf8Bytes_four c h1 h2 h3]
        show utf8DecodeChars
            ((240 + c.toNat / 262144) :: (128 + c.toNat / 4096 % 64) ::
              (128 + c.toNat / 64 % 64) :: (128 + c.toNat % 64) :: bs) = _
        rw [utf8DecodeChars]
        rw [if_neg (by omega), if_neg (by omega), if_neg (by omega), if_neg (by omega),
          if_pos (by omega)]
        rw [utf8DecodeFour]
        rw [if_pos (show (contByte (128 + c.toNat / 4096 % 64) && contByte (128 + c.toNat / 64 % 64) &&
            contByte (128 + c.toNat % 64)) = true by simp [contByte]; omega)]
        have harg : (240 + c.toNat / 262144 - 240) * 262144 + (128 + c.toNat / 4096 % 64 - 128) * 4096 +
            (128 + c.toNat / 64 % 64 - 128) * 64 + (128 + c.toNat % 64 - 128) = c.toNat := by omega
        rw [harg, Char.ofNat_toNat]


theorem utf8DecodeChars_enc (cs : List Char) :
    utf8DecodeChars (cs.flatMap utf8Bytes) = some cs := by
  induction cs with
  | nil => rfl
  | cons c rest ih =>
      simp only [List.flatMap_cons]
      rw [utf8DecodeChars_encChar c _, ih]
      rfl

theorem decodeURIComponent_encodeURIComponent (s : String) :
    decodeURIComponent (encodeURIComponent s) = some s := by
  unfold decodeURIComponent encodeURIComponent
  show (match percentDecodeBytes (s.data.flatMap encodeCharURI) with
    | none => none
    | some bs => (utf8DecodeChars bs).map String.mk) = some s
  rw [percentDecodeBytes_enc]
  show (utf8DecodeChars (s.data.flatMap utf8Bytes)).map String.mk = some s
  rw [utf8DecodeChars_enc]
  cases s
  rfl

theorem decodeURIComponent_noPct (s : String) (h : ∀ c ∈ s.data, ¬(c = '%')) :
    decodeURIComponent s = some s := by
  unfold decodeURIComponent
  show (match percentDecodeBytes s.data with
    | none => none
    | some bs => (utf8DecodeChars bs).map String.mk) = some s
  rw [percentDecodeBytes_noPct s.data h]
  show (utf8DecodeChars (s.data.flatMap utf8Bytes)).map String.mk = some s
  rw [utf8DecodeChars_enc]
  cases s
  rfl


theorem splitOnChar_no_sep (sep : Char) (a : List Char) (h : ∀ c ∈ a, ¬(c = sep)) :
    splitOnChar sep a = [a] := by
  induction a with
  | nil => rfl
  | cons c cs ih =>
      rw [splitOnChar.eq_def]
      dsimp only
      rw [if_neg (h c (List.mem_cons_self c cs))]
      rw [ih (fun x hx => h x (List.mem_cons_of_mem c hx))]

theorem splitOnChar_append (sep : Char) (a b : List Char) (h : ∀ c ∈ a, ¬(c = sep)) :
    splitOnChar sep (a ++ sep :: b) = a :: splitOnChar sep b := by
  induction a with
  | nil =>
      show splitOnChar sep (sep :: b) = [] :: splitOnChar sep b
      rw [splitOnChar.eq_def]
      dsimp only
      rw [if_pos rfl]
  | cons c cs ih =>
      show splitOnChar sep (c :: (cs ++ sep :: b)) = _
      rw [splitOnChar.eq_def]
      dsimp only
      rw [if_neg (h c (List.mem_cons_self c cs))]
      rw [ih (fun x hx => h x (List.mem_cons_of_mem c hx))]

theorem breakAtChar_append (sep : Char) (a b : List Char) (h : ∀ c ∈ a, ¬(c = sep)) :
    breakAtChar sep (a ++ sep :: b) = (a, some b) := by
  induction a with
  | nil =>
      show breakAtChar sep (sep :: b) = ([], some b)
      rw [breakAtChar.eq_def]
      dsimp only
      rw [if_pos rfl]
  | cons c cs ih =>
      show breakAtChar sep (c :: (cs ++ sep :: b)) = _
      rw [breakAtChar.eq_def]
      dsimp only
      rw [if_neg (h c (List.mem_cons_self c cs))]
      rw [ih (fun x hx => h x (List.mem_cons_of_mem c hx))]

theorem stripLeading_append (p r : List Char) : stripLeading p (p ++ r) = some r := by
  induction p with
  | nil => rfl
  | cons c cs ih =>
      show stripLeading (c :: cs) (c :: (cs ++ r)) = some r
      rw [stripLeading.eq_def]
      dsimp only
      rw [if_pos rfl]
      exact ih

theorem hexDigitChar_range : ∀ n, n < 16 →
    (48 ≤ (hexDigitChar n).toNat ∧ (hexDigitChar n).toNat ≤ 57) ∨
    (65 ≤ (hexDigitChar n).toNat ∧ (hexDigitChar n).toNat ≤ 70) := by
  decide

theorem encodeCharURI_safe (c d : Char) (hd : d ∈ encodeCharURI c) :
    ¬(d = '&') ∧ ¬(d = '=') := by
  unfold encodeCharURI at hd
  split at hd
  case isTrue h =>
    simp only [List.mem_singleton] at hd
    subst hd
    constructor <;> intro he <;> rw [he] at h <;> revert h <;> decide
  case isFalse =>
    rw [List.mem_flatMap] at hd
    obtain ⟨b, hb, hdb⟩ := hd
    have hblt := utf8Bytes_lt c b hb
    simp only [percentEncodeByte, List.mem_cons, List.not_mem_nil, or_false] at hdb
    have h16a : b / 16 < 16 := by omega
    have h16b : b % 16 < 16 := by omega
    rcases hdb with h1 | h2 | h3
    · subst h1
      constructor <;> decide
    · subst h2
      refine ⟨fun he => ?_, fun he => ?_⟩
      · have hn : (hexDigitChar (b / 16)).toNat = 38 := by rw [he]; decide
        rcases hexDigitChar_range (b / 16) h16a with hr | hr <;> omega
      · have hn : (hexDigitChar (b / 16)).toNat = 61 := by rw [he]; decide
        rcases hexDigitChar_range (b / 16) h16a with hr | hr <;> omega
    · subst h3
      refine ⟨fun he => ?_, fun he => ?_⟩
      · have hn : (hexDigitChar (b % 16)).toNat = 38 := by rw [he]; decide
        rcases hexDigitChar_range (b % 16) h16b with hr | hr <;> omega
      · have hn : (hexDigitChar (b % 16)).toNat = 61 := by rw [he]; decide
        rcases hexDigitChar_range (b % 16) h16b with hr | hr <;> omega

theorem isLangChar_spec (c : Char) (h : isLangChar c = true) :
    ¬(c = '&') ∧ ¬(c = '=') ∧ ¬(c = '%') := by
  refine ⟨?_, ?_, ?_⟩ <;> intro he <;> rw [he] at h <;> revert h <;> decide

theorem parseProxyRelative_proxyWrap (link tl : String)
    (hlang : ∀ c ∈ tl.data, isLangChar c = true) :
    parseProxyRelative (proxyWrap tl link) = some (link, tl) := by
  have hmk : (String.mk (link.data.flatMap encodeCharURI)).data
      = link.data.flatMap encodeCharURI := rfl
  have hdata : (proxyWrap tl link).data =
      ("/proxy?".data) ++
        (("url=".data ++ link.data.flatMap encodeCharURI) ++
          '&' :: ("lang=".data ++ tl.data)) := by
    show ("/proxy?url=" ++ encodeURIComponent link ++ "&lang=" ++ tl).data = _
    rw [String.data_append, String.data_append, String.data_append]
    unfold encodeURIComponent
    rw [hmk]
    rw [show "/proxy?url=".data = "/proxy?".data ++ "url=".data from rfl]
    rw [show "&lang=".data = '&' :: "lang=".data from rfl]
    simp [List.append_assoc]
  have hurlSafe : ∀ c ∈ "url=".data ++ link.data.flatMap encodeCharURI, ¬(c = '&') := by
    intro c hc
    rcases List.mem_append.mp hc with hc | hc
    · intro he
      subst he
      revert hc
      decide
    · rw [List.mem_flatMap] at hc
      obtain ⟨d, _, hcd⟩ := hc
      exact (encodeCharURI_safe d c hcd).1
  have hlangSafe : ∀ c ∈ "lang=".data ++ tl.data, ¬(c = '&') := by
    intro c hc
    rcases List.mem_append.mp hc with hc | hc
    · intro he
      subst he
      revert hc
      decide
    · exact (isLangChar_spec c (hlang c hc)).1
  unfold parseProxyRelative
  rw [hdata, stripLeading_append]
  dsimp only
  rw [splitOnChar_append '&' _ _ hurlSafe]
  rw [splitOnChar_no_sep '&' _ hlangSafe]
  dsimp only [List.map_cons, List.map_nil]
  have hpairUrl : queryPairOf ("url=".data ++ link.data.flatMap encodeCharURI)
      = ("url", String.mk (link.data.flatMap encodeCharURI)) := by
    unfold queryPairOf
    rw [show "url=".data ++ link.data.flatMap encodeCharURI
        = "url".data ++ '=' :: link.data.flatMap encodeCharURI from by simp]
    rw [breakAtChar_append '=' _ _ (by decide)]
    rfl
  have hpairLang : queryPairOf ("lang=".data ++ tl.data)
      = ("lang", String.mk tl.data) := by
    unfold queryPairOf
    rw [show "lang=".data ++ tl.data = "lang".data ++ '=' :: tl.data from by simp]
    rw [breakAtChar_append '=' _ _ (by decide)]
    rfl
  rw [hpairUrl, hpairLang]
  rw [show lookupParam "url" [("url", String.mk (link.data.flatMap encodeCharURI)),
      ("lang", String.mk tl.data)] = some (String.mk (link.data.flatMap encodeCharURI)) from by
    unfold lookupParam
    rw [if_pos rfl]]
  rw [show lookupParam "lang" [("url", String.mk (link.data.flatMap encodeCharURI)),
      ("lang", String.mk tl.data)] = some (String.mk tl.data) from by
    unfold lookupParam
    rw [if_neg (by decide)]
    unfold lookupParam
    rw [if_pos rfl]]
  rw [show String.mk (link.data.flatMap encodeCharURI) = encodeURIComponent link from rfl]
  rw [show String.mk tl.data = tl from rfl]
  dsimp only
  rw [decodeURIComponent_encodeURIComponent]
  rw [decodeURIComponent_noPct tl (fun c hc => (isLangChar_spec c (hlang c hc)).2.2)]

theorem startsList_cons_iff (p : Char) (ps l : List Char) :
    startsList (p :: ps) l = true ↔ ∃ t, l = p :: t ∧ startsList ps t = true := by
  cases l with
  | nil =>
      constructor
      · intro h
        exact absurd h (by rw [startsList]; decide)
      · rintro ⟨t, ht, _⟩
        cases ht
  | cons c cs =>
      rw [startsList, Bool.and_eq_true]
      constructor
      · rintro ⟨h1, h2⟩
        exact ⟨cs, by rw [of_decide_eq_true h1], h2⟩
      · rintro ⟨t, ht, h2⟩
        injection ht with ht1 ht2
        subst ht1
        subst ht2
        exact ⟨by simp, h2⟩

theorem startsList_mono (pat l r : List Char) (h : startsList pat l = true) :
    startsList pat (l ++ r) = true := by
  induction pat generalizing l with
  | nil => rw [startsList.eq_def]
  | cons p ps ih =>
      obtain ⟨t, ht, h2⟩ := (startsList_cons_iff p ps l).mp h
      subst ht
      rw [List.cons_append]
      exact (startsList_cons_iff p ps (p :: (t ++ r))).mpr ⟨t ++ r, rfl, ih t h2⟩

theorem getAttr_setAttr_same (attrs : List (String × String)) (a v : String) :
    getAttr (setAttr attrs a v) a = some v := by
  induction attrs with
  | nil => simp [setAttr, getAttr]
  | cons kv rest ih =>
      obtain ⟨k, w⟩ := kv
      by_cases hk : k = a
      · subst hk
        simp [setAttr, getAttr]
      · simp [setAttr, getAttr, hk, ih]

theorem getAttr_setAttr_ne (attrs : List (String × String)) (a v k : String)
    (hk : ¬(k = a)) : getAttr (setAttr attrs a v) k = getAttr attrs k := by
  have hak : ¬(a = k) := fun he => hk he.symm
  induction attrs with
  | nil => simp [setAttr, getAttr, hak]
  | cons kv rest ih =>
      obtain ⟨k2, w⟩ := kv
      by_cases hk2 : k2 = a
      · subst hk2
        simp [setAttr, getAttr, hak]
      · by_cases hkk : k2 = k
        · subst hkk
          simp [setAttr, getAttr, hk2]
        · simp [setAttr, getAttr, hk2, hkk, ih]

theorem rewriteChosen_http (origin tl link : String)
    (hhttp : startsList ("http".data) link.data = true) :
    rewriteChosen origin tl (some link) = .ok (some (proxyWrap tl link)) := by
  have hh2 : startsList (['h', 't', 't', 'p'] : List Char) link.data = true := by
    rw [show (['h', 't', 't', 'p'] : List Char) = "http".data from by decide]
    exact hhttp
  unfold rewriteChosen
  dsimp only
  simp [hh2]

theorem rewriteChosen_wrapped (origin tl w : String)
    (hw : startsList ("/proxy?url=".data) w.data = true)
    (ho : startsList ("http".data) origin.data = true) :
    rewriteChosen origin tl (some w) = .ok (some (proxyWrap tl (origin ++ w))) := by
  have hw2 : startsList ('/' :: "proxy?url=".data) w.data = true := by
    rw [show ('/' :: "proxy?url=".data) = "/proxy?url=".data from by decide]
    exact hw
  obtain ⟨t, ht, _⟩ := (startsList_cons_iff '/' ("proxy?url=".data) w.data).mp hw2
  have hne : ¬(w = "") := by
    intro he
    rw [he] at ht
    exact absurd ht (by simp)
  have hbeq : (w == "") = false := beq_eq_false_iff_ne.mpr hne
  have hnohttp : startsList ("http".data) w.data = false := by
    rw [ht, show ("http".data) = 'h' :: "ttp".data from by decide, startsList]
    simp
  have hslash : startsList ("/".data) w.data = true := by
    rw [ht, show ("/".data) = '/' :: ([] : List Char) from by decide, startsList]
    simp [startsList]
  have hmono : startsList ("http".data) (origin ++ w).data = true := by
    rw [String.data_append]
    exact startsList_mono _ _ _ ho
  have hmono2 : startsList (['h', 't', 't', 'p'] : List Char) (origin ++ w).data = true := by
    rw [show (['h', 't', 't', 'p'] : List Char) = "http".data from by decide]
    exact hmono
  have hnohttp2 : startsList (['h', 't', 't', 'p'] : List Char) w.data = false := by
    rw [show (['h', 't', 't', 'p'] : List Char) = "http".data from by decide]
    exact hnohttp
  have hslash2 : startsList (['/'] : List Char) w.data = true := by
    rw [show (['/'] : List Char) = "/".data from by decide]
    exact hslash
  have hmono3 : startsList (['h', 't', 't', 'p'] : List Char) (origin.data ++ w.data) = true := by
    rw [← String.data_append]
    exact hmono2
  unfold rewriteChosen
  dsimp only
  simp [hbeq, hnohttp2, hslash2, hmono2, hmono3]

theorem rewriteChosen_undef (origin tl : String) :
    rewriteChosen origin tl none = .error .typeErrorUndefined := rfl

theorem rewriteElemAttrs_chosen_http (origin tl tag : String)
    (attrs : List (String × String)) (link : String)
    (hsel : isSelected tag attrs = true)
    (hval : getAttr attrs (chooseAttr attrs) = some link)
    (hhttp : startsList ("http".data) link.data = true) :
    rewriteElemAttrs origin tl tag attrs =
      .ok (setAttr attrs (chooseAttr attrs) (proxyWrap tl link)) := by
  unfold rewriteElemAttrs
  rw [if_pos hsel]
  dsimp only
  rw [hval, rewriteChosen_http origin tl link hhttp]

theorem rewriteElemAttrs_untouched (origin tl tag : String)
    (attrs attrs2 : List (String × String))
    (h : rewriteElemAttrs origin tl tag attrs = .ok attrs2)
    (k : String) (hk : ¬(k = chooseAttr attrs)) :
    getAttr attrs2 k = getAttr attrs k := by
  unfold rewriteElemAttrs at h
  dsimp only at h
  split at h
  · cases hre : rewriteChosen origin tl (getAttr attrs (chooseAttr attrs)) with
    | error e =>
        rw [hre] at h
        cases h
    | ok vo =>
        rw [hre] at h
        cases vo with
        | none =>
            cases h
            rfl
        | some v =>
            cases h
            exact getAttr_setAttr_ne attrs (chooseAttr attrs) v k hk
  · cases h
    rfl

theorem allTexts_cons (n : DNode) (ns : List DNode) :
    allTexts (n :: ns) = nodeTexts n ++ allTexts ns := by
  cases n with
  | text s => rw [allTexts, nodeTexts, List.cons_append, List.nil_append]
  | elem t a cs => rw [allTexts, nodeTexts]

mutual

theorem rewriteNode_preserves (o tl : String) (n n2 : DNode)
    (h : rewriteNode o tl n = .ok n2) :
    nodeTexts n2 = nodeTexts n ∧ shapeOf n2 = shapeOf n := by
  cases n with
  | text s =>
      rw [rewriteNode] at h
      injection h with h
      subst h
      exact ⟨rfl, rfl⟩
  | elem t a cs =>
      rw [rewriteNode] at h
      cases hra : rewriteElemAttrs o tl t a with
      | error e =>
          rw [hra] at h
          cases h
      | ok a2 =>
          rw [hra] at h
          cases hrl : rewriteList o tl cs with
          | error e =>
              rw [hrl] at h
              cases h
          | ok cs2 =>
              rw [hrl] at h
              injection h with h
              subst h
              obtain ⟨h1, h2⟩ := rewriteList_preserves o tl cs cs2 hrl
              constructor
              · rw [nodeTexts, nodeTexts, h1]
              · rw [shapeOf, shapeOf, h2]

theorem rewriteList_preserves (o tl : String) (cs cs2 : List DNode)
    (h : rewriteList o tl cs = .ok cs2) :
    allTexts cs2 = allTexts cs ∧ shapeList cs2 = shapeList cs := by
  cases cs with
  | nil =>
      rw [rewriteList] at h
      injection h with h
      subst h
      exact ⟨rfl, rfl⟩
  | cons n ns =>
      rw [rewriteList] at h
      cases hrn : rewriteNode o tl n with
      | error e =>
          rw [hrn] at h
          cases h
      | ok n2 =>
          rw [hrn] at h
          cases hrl : rewriteList o tl ns with
          | error e =>
              rw [hrl] at h
              cases h
          | ok ns2 =>
              rw [hrl] at h
              injection h with h
              subst h
              obtain ⟨a1, s1⟩ := rewriteNode_preserves o tl n n2 hrn
              obtain ⟨a2, s2⟩ := rewriteList_preserves o tl ns ns2 hrl
              constructor
              · rw [allTexts_cons, allTexts_cons, a1, a2]
              · rw [shapeList, shapeList, s1, s2]

end

mutual

theorem forcePost_preserves (n : DNode) :
    nodeTexts (forcePost n) = nodeTexts n ∧ shapeOf (forcePost n) = shapeOf n := by
  cases n with
  | text s => exact ⟨rfl, rfl⟩
  | elem t a cs =>
      obtain ⟨h1, h2⟩ := forcePostList_preserves cs
      constructor
      · rw [forcePost, nodeTexts, nodeTexts, h1]
      · rw [forcePost, shapeOf, shapeOf, h2]

theorem forcePostList_preserves (cs : List DNode) :
    allTexts (forcePostList cs) = allTexts cs ∧
    shapeList (forcePostList cs) = shapeList cs := by
  cases cs with
  | nil => exact ⟨rfl, rfl⟩
  | cons n ns =>
      obtain ⟨h1, h2⟩ := forcePost_preserves n
      obtain ⟨h3, h4⟩ := forcePostList_preserves ns
      constructor
      · rw [forcePostList, allTexts_cons, allTexts_cons, h1, h3]
      · rw [forcePostList, shapeList, shapeList, h2, h4]

end

mutual

theorem shapeOf_translateAll (engine : String → String) (n : DNode) :
    shapeOf (translateAll engine n) = shapeOf n := by
  cases n with
  | text s =>
      rw [translateAll]
      by_cases h : jsTrim s ≠ ""
      · rw [if_pos h]
        rfl
      · rw [if_neg h]
  | elem t a cs =>
      rw [translateAll, shapeOf, shapeOf, shapeList_translateList engine cs]

theorem shapeList_translateList (engine : String → String) (cs : List DNode) :
    shapeList (translateList engine cs) = shapeList cs := by
  cases cs with
  | nil => rfl
  | cons n ns =>
      rw [translateList, shapeList, shapeList, shapeOf_translateAll engine n,
        shapeList_translateList engine ns]

end

theorem shapeList_translateBody (engine : String → String) (ns : List DNode) :
    shapeList (translateBody engine ns) = shapeList ns := by
  cases ns with
  | nil => rfl
  | cons n rest =>
      cases n with
      | text s =>
          rw [translateBody, shapeList, shapeList, shapeList_translateBody engine rest]
      | elem t a cs =>
          rw [translateBody, shapeList, shapeList,
            shapeOf_translateAll engine (.elem t a cs),
            shapeList_translateBody engine rest]

mutual

theorem nodeTexts_translateAll (engine : String → String) (n : DNode) :
    nodeTexts (translateAll engine n) =
      (taggedTexts true [n]).map (fun p => if p.2 then engine p.1 else p.1) := by
  cases n with
  | text s =>
      rw [translateAll, taggedTexts, taggedTexts]
      by_cases h : jsTrim s ≠ ""
      · rw [if_pos h]
        simp [nodeTexts, h]
      · rw [if_neg h]
        simp [nodeTexts]
        simp at h
        simp [h]
  | elem t a cs =>
      rw [translateAll, nodeTexts, taggedTexts, taggedTexts]
      rw [allTexts_translateList engine cs]
      simp

theorem allTexts_translateList (engine : String → String) (cs : List DNode) :
    allTexts (translateList engine cs) =
      (taggedTexts true cs).map (fun p => if p.2 then engine p.1 else p.1) := by
  cases cs with
  | nil =>
      rw [translateList, allTexts, taggedTexts]
      rfl
  | cons n ns =>
      rw [translateList, allTexts_cons, nodeTexts_translateAll engine n,
        allTexts_translateList engine ns]
      cases n with
      | text s =>
          rw [taggedTexts, taggedTexts, taggedTexts]
          simp
      | elem t a cs2 =>
          rw [taggedTexts, taggedTexts, taggedTexts]
          simp

end

theorem allTexts_translateBody (engine : String → String) (ns : List DNode) :
    allTexts (translateBody engine ns) =
      (taggedTexts false ns).map (fun p => if p.2 then engine p.1 else p.1) := by
  cases ns with
  | nil =>
      rw [translateBody, allTexts, taggedTexts]
      rfl
  | cons n rest =>
      cases n with
      | text s =>
          rw [translateBody, allTexts, taggedTexts, List.map_cons,
            allTexts_translateBody engine rest]
          simp
      | elem t a cs =>
          rw [translateBody, allTexts_cons, nodeTexts_translateAll engine (.elem t a cs),
            allTexts_translateBody engine rest, taggedTexts]
          rw [taggedTexts]
          simp [taggedTexts]

theorem encodeCharURI_length (c : Char) : 1 ≤ (encodeCharURI c).length := by
  unfold encodeCharURI
  split
  · simp
  · have hv := char_toNat_lt_uniMax c
    by_cases h1 : c.toNat < 128
    · rw [utf8Bytes_one c h1]
      simp [percentEncodeByte]
    · by_cases h2 : c.toNat < 2048
      · rw [utf8Bytes_two c h1 h2]
        simp [percentEncodeByte]
      · by_cases h3 : c.toNat < 65536
        · rw [utf8Bytes_three c h1 h2 h3]
          simp [percentEncodeByte]
        · rw [utf8Bytes_four c h1 h2 h3]
          simp [percentEncodeByte]

theorem flatMap_enc_length (cs : List Char) :
    cs.length ≤ (cs.flatMap encodeCharURI).length := by
  induction cs with
  | nil => simp
  | cons c rest ih =>
      rw [List.flatMap_cons, List.length_append, List.length_cons]
      have := encodeCharURI_length c
      omega

theorem proxyWrap_length (tl x : String) :
    (proxyWrap tl x).data.length =
      11 + (x.data.flatMap encodeCharURI).length + 6 + tl.data.length := by
  unfold proxyWrap encodeURIComponent
  rw [String.data_append, String.data_append, String.data_append]
  rw [show (String.mk (x.data.flatMap encodeCharURI)).data = x.data.flatMap encodeCharURI from rfl]
  simp [List.length_append]
  omega

theorem proxyWrap_ne (tl origin w : String) :
    ¬(proxyWrap tl (origin ++ w) = w) := by
  intro he
  have hlen := congrArg (fun s : String => s.data.length) he
  simp only [] at hlen
  rw [proxyWrap_length] at hlen
  have h2 := flatMap_enc_length (origin ++ w).data
  rw [String.data_append, List.length_append] at h2
  rw [String.data_append] at hlen
  omega

/-- C4: evaluation at the failing input. For an upstream 200 response
with no content-type header, the classification step reads `.includes`
of undefined and throws, so the route answers a 500 proxy error and
does not pass the body through verbatim as the claim requires. -/
theorem missing_content_type_yields_500 :
    handleProxy needsTranslationNLLB (fun s => s) "https://e.com" "fr"
        (fun _ => ⟨[], [], []⟩) ⟨200, none, "RAWBYTES"⟩ =
      .proxyError .typeErrorUndefined ∧
    ¬(handleProxy needsTranslationNLLB (fun s => s) "https://e.com" "fr"
        (fun _ => ⟨[], [], []⟩) ⟨200, none, "RAWBYTES"⟩ =
      .passThrough "RAWBYTES") := by
  have h1 : handleProxy needsTranslationNLLB (fun s => s) "https://e.com" "fr"
      (fun _ => ⟨[], [], []⟩) ⟨200, none, "RAWBYTES"⟩ =
      .proxyError .typeErrorUndefined := rfl
  refine ⟨h1, fun hc => ?_⟩
  rw [h1] at hc
  exact ProxyResponse.noConfusion hc

/-- C5 counterexample: a 404 upstream response carrying text/plain
content is not passed through; the axios promise rejects under the
default status validation and the route answers a 500 proxy error. -/
theorem non_2xx_not_passed_through :
    handleProxy needsTranslationNLLB (fun s => s) "https://e.com" "fr"
        (fun _ => ⟨[], [], []⟩) ⟨404, some "text/plain", "not found"⟩ =
      .proxyError (.upstreamStatus 404) ∧
    ¬(handleProxy needsTranslationNLLB (fun s => s) "https://e.com" "fr"
        (fun _ => ⟨[], [], []⟩) ⟨404, some "text/plain", "not found"⟩ =
      .passThrough "not found") := by
  have h1 : handleProxy needsTranslationNLLB (fun s => s) "https://e.com" "fr"
      (fun _ => ⟨[], [], []⟩) ⟨404, some "text/plain", "not found"⟩ =
      .proxyError (.upstreamStatus 404) := rfl
  refine ⟨h1, fun hc => ?_⟩
  rw [h1] at hc
  exact ProxyResponse.noConfusion hc

/-- C5 amended: every upstream response with a status outside 200..299
is rejected by the axios default `validateStatus`, and the /proxy route
answers a 500 proxy error carrying that status; the upstream body is
never passed through for such responses. Pass-through applies only to
2xx non-HTML responses. -/
theorem non_2xx_yields_500 (cmp : String → String → Bool)
    (engine : String → String) (origin targetLang : String)
    (parseHtml : String → Doc) (resp : UpstreamResponse)
    (h : ¬(200 ≤ resp.status ∧ resp.status < 300)) :
    handleProxy cmp engine origin targetLang parseHtml resp =
      .proxyError (.upstreamStatus resp.status) := by
  unfold handleProxy axiosValidateStatus
  rw [if_neg h]

/-- Witness for the C5 amended theorem at a concrete 500 upstream
response. -/
theorem non_2xx_yields_500_witness :
    ¬(200 ≤ 500 ∧ 500 < 300) ∧
    handleProxy needsTranslationExact (fun s => s) "https://e.com" "fr"
        (fun _ => ⟨[], [], []⟩) ⟨500, some "text/plain", "boom"⟩ =
      .proxyError (.upstreamStatus 500) :=
  ⟨by decide,
    non_2xx_yields_500 needsTranslationExact (fun s => s) "https://e.com" "fr"
      (fun _ => ⟨[], [], []⟩) ⟨500, some "text/plain", "boom"⟩ (by decide)⟩

/-- C6: for an element matched by the selector whose chosen attribute
holds an absolute http(s) URL, the rewriter stores a proxy-relative
value on that attribute, and parsing that value as a proxy-relative
query string yields back exactly the original absolute URL and the
target language of the request (round trip), provided the target
language code consists of alphanumeric and underscore characters. -/
theorem rewritten_link_roundtrips (origin targetLang tag : String)
    (attrs : List (String × String)) (link : String)
    (hsel : isSelected tag attrs = true)
    (hval : getAttr attrs (chooseAttr attrs) = some link)
    (hhttp : startsList ("http".data) link.data = true)
    (hlang : ∀ c ∈ targetLang.data, isLangChar c = true) :
    rewriteElemAttrs origin targetLang tag attrs =
      .ok (setAttr attrs (chooseAttr attrs) (proxyWrap targetLang link)) ∧
    getAttr (setAttr attrs (chooseAttr attrs) (proxyWrap targetLang link))
        (chooseAttr attrs) = some (proxyWrap targetLang link) ∧
    parseProxyRelative (proxyWrap targetLang link) = some (link, targetLang) :=
  ⟨rewriteElemAttrs_chosen_http origin targetLang tag attrs link hsel hval hhttp,
    getAttr_setAttr_same attrs (chooseAttr attrs) (proxyWrap targetLang link),
    parseProxyRelative_proxyWrap link targetLang hlang⟩

/-- Witness for C6 at an anchor holding an absolute URL with a space
(so the encoding is exercised) and the target code fra_Latn. -/
theorem rewritten_link_roundtrips_witness :
    isSelected "a" [("href", "http://a.com/x y")] = true ∧
    parseProxyRelative (proxyWrap "fra_Latn" "http://a.com/x y") =
      some ("http://a.com/x y", "fra_Latn") :=
  ⟨by decide,
    (rewritten_link_roundtrips "https://e.com" "fra_Latn" "a"
      [("href", "http://a.com/x y")] "http://a.com/x y" (by decide) rfl
      (by decide) (by decide)).2.2⟩

/-- C7 counterexample: running the rewriter on an anchor whose href is
already a rewritten proxy-relative URL does not leave it unchanged: the
value is resolved against the page origin and wrapped in a second
/proxy?url= layer (note the doubly encoded %25 sequences). -/
theorem rewriter_double_wraps_counterexample :
    rewriteElemAttrs "https://shop.example" "fr" "a"
        [("href", "/proxy?url=https%3A%2F%2Fa.com&lang=fr")] =
      .ok [("href",
        "/proxy?url=https%3A%2F%2Fshop.example%2Fproxy%3Furl%3Dhttps%253A%252F%252Fa.com%26lang%3Dfr&lang=fr")] ∧
    ¬("/proxy?url=https%3A%2F%2Fshop.example%2Fproxy%3Furl%3Dhttps%253A%252F%252Fa.com%26lang%3Dfr&lang=fr"
        = "/proxy?url=https%3A%2F%2Fa.com&lang=fr") :=
  ⟨rfl, by decide⟩

/-- C7 amended: applying the rewriting transformation to an attribute
value that is already a rewritten proxy-relative URL does not leave it
unchanged: the value does not start with http, so it is resolved
against the page origin (origin ++ value, the value already starts with
a slash) and, the origin being an http(s) URL, wrapped in a second
/proxy?url= layer; the result always differs from the input. The
rewriter is therefore not idempotent on its own output; it is only
invoked once per fetch in the pipeline. -/
theorem rewriter_double_wraps (origin targetLang w : String)
    (hw : startsList ("/proxy?url=".data) w.data = true)
    (ho : startsList ("http".data) origin.data = true) :
    rewriteChosen origin targetLang (some w) =
      .ok (some (proxyWrap targetLang (origin ++ w))) ∧
    ¬(proxyWrap targetLang (origin ++ w) = w) :=
  ⟨rewriteChosen_wrapped origin targetLang w hw ho,
    proxyWrap_ne targetLang origin w⟩

/-- Witness for the C7 amended theorem at a concrete already-rewritten
value. -/
theorem rewriter_double_wraps_witness :
    startsList ("/proxy?url=".data)
      ("/proxy?url=https%3A%2F%2Fa.com&lang=fr".data) = true ∧
    rewriteChosen "https://shop.example" "fr"
        (some "/proxy?url=https%3A%2F%2Fa.com&lang=fr") =
      .ok (some (proxyWrap "fr"
        ("https://shop.example" ++ "/proxy?url=https%3A%2F%2Fa.com&lang=fr"))) :=
  ⟨by decide,
    (rewriter_double_wraps "https://shop.example" "fr"
      "/proxy?url=https%3A%2F%2Fa.com&lang=fr" (by decide) (by decide)).1⟩

/-- C8 counterexample: an anchor carrying both href and src, with an
empty href value, has its src rewritten and its href left alone: the
attribute ternary uses JS truthiness, so the empty href falls through
to src, against the claimed presence-based precedence that would pick
href. -/
theorem empty_href_precedence_counterexample :
    rewriteElemAttrs "https://e.com" "fr" "a"
        [("href", ""), ("src", "http://a.com/x")] =
      .ok [("href", ""), ("src", "/proxy?url=http%3A%2F%2Fa.com%2Fx&lang=fr")] ∧
    chooseAttr [("href", ""), ("src", "http://a.com/x")] = "src" ∧
    ¬("/proxy?url=http%3A%2F%2Fa.com%2Fx&lang=fr" = "http://a.com/x") :=
  ⟨rfl, rfl, by decide⟩

/-- C8 amended: per selected element at most one attribute is
rewritten, namely the first of href, src, action whose value is a
non-empty string (JS truthiness; an attribute that is present with an
empty value is skipped, and when neither href nor src is truthy the
fallback is action); every other attribute keeps its value. -/
theorem rewriter_precedence_by_truthiness (origin targetLang tag : String)
    (attrs attrs2 : List (String × String))
    (h : rewriteElemAttrs origin targetLang tag attrs = .ok attrs2) :
    (truthyStr (getAttr attrs "href") = true →
      ∀ k, ¬(k = "href") → getAttr attrs2 k = getAttr attrs k) ∧
    (truthyStr (getAttr attrs "href") = false →
      truthyStr (getAttr attrs "src") = true →
      ∀ k, ¬(k = "src") → getAttr attrs2 k = getAttr attrs k) ∧
    (truthyStr (getAttr attrs "href") = false →
      truthyStr (getAttr attrs "src") = false →
      ∀ k, ¬(k = "action") → getAttr attrs2 k = getAttr attrs k) := by
  refine ⟨fun hh k hk => ?_, fun hh hs k hk => ?_, fun hh hs k hk => ?_⟩
  · have hch : chooseAttr attrs = "href" := by
      unfold chooseAttr
      rw [if_pos hh]
    exact rewriteElemAttrs_untouched origin targetLang tag attrs attrs2 h k
      (by rw [hch]; exact hk)
  · have hch : chooseAttr attrs = "src" := by
      simp [chooseAttr, hh, hs]
    exact rewriteElemAttrs_untouched origin targetLang tag attrs attrs2 h k
      (by rw [hch]; exact hk)
  · have hch : chooseAttr attrs = "action" := by
      simp [chooseAttr, hh, hs]
    exact rewriteElemAttrs_untouched origin targetLang tag attrs attrs2 h k
      (by rw [hch]; exact hk)

/-- Witness for the C8 amended theorem: on the element with an empty
href and a truthy src, only src is rewritten and href survives. -/
theorem rewriter_precedence_by_truthiness_witness :
    rewriteElemAttrs "https://e.com" "fr" "a"
        [("href", ""), ("src", "http://a.com/x")] =
      .ok [("href", ""), ("src", "/proxy?url=http%3A%2F%2Fa.com%2Fx&lang=fr")] ∧
    getAttr [("href", ""), ("src", "/proxy?url=http%3A%2F%2Fa.com%2Fx&lang=fr")]
        "href" =
      getAttr [("href", ""), ("src", "http://a.com/x")] "href" :=
  ⟨rfl,
    (rewriter_precedence_by_truthiness "https://e.com" "fr" "a"
          [("href", ""), ("src", "http://a.com/x")]
          [("href", ""), ("src", "/proxy?url=http%3A%2F%2Fa.com%2Fx&lang=fr")]
          rfl).2.1 rfl rfl "href" (by decide)⟩

/-- C10: a selected anchor whose href is present but empty, with no src
and no action, makes the ternary fall through to action; the action
lookup is undefined, `startsWith` on undefined throws a TypeError, and
the whole request is answered with a 500 proxy error instead of the
page being served with the attribute unrewritten. -/
theorem empty_href_lookup_throws (origin targetLang : String)
    (engine : String → String) (attrs : List (String × String)) (body : String)
    (h1 : getAttr attrs "href" = some "")
    (h2 : getAttr attrs "src" = none)
    (h3 : getAttr attrs "action" = none) :
    rewriteElemAttrs origin targetLang "a" attrs = .error .typeErrorUndefined ∧
    handleProxy needsTranslationNLLB engine origin targetLang
        (fun _ => ⟨[], [], [.elem "a" attrs []]⟩) ⟨200, some "text/html", body⟩ =
      .proxyError .typeErrorUndefined := by
  have hch : chooseAttr attrs = "action" := by
    simp [chooseAttr, h1, h2, truthyStr]
  have hsel : isSelected "a" attrs = true := by
    simp [isSelected, h1]
  have hre : rewriteElemAttrs origin targetLang "a" attrs =
      .error .typeErrorUndefined := by
    unfold rewriteElemAttrs
    rw [if_pos hsel]
    dsimp only
    rw [hch, h3]
    rfl
  refine ⟨hre, ?_⟩
  have hrn : rewriteNode origin targetLang (.elem "a" attrs []) =
      .error .typeErrorUndefined := by
    rw [rewriteNode, hre]
  have hrl : rewriteList origin targetLang [DNode.elem "a" attrs []] =
      .error .typeErrorUndefined := by
    rw [rewriteList, hrn]
  have htb : translateBody engine [DNode.elem "a" attrs []] =
      [DNode.elem "a" attrs []] := by
    rw [translateBody, translateAll, translateList, translateBody]
  have hph : processHtml needsTranslationNLLB engine origin targetLang
      ⟨[], [], [.elem "a" attrs []]⟩ = .error .typeErrorUndefined := by
    unfold processHtml
    dsimp only
    rw [htb, ite_self]
    rw [show rewriteList origin targetLang ([] : List DNode) = .ok [] from rfl]
    rw [hrl]
  unfold handleProxy
  rw [show axiosValidateStatus ⟨200, some "text/html", body⟩ =
    .ok ⟨200, some "text/html", body⟩ from rfl]
  dsimp only
  rw [show classifyHtml (some "text/html") = .ok true from rfl]
  dsimp only
  rw [hph]

/-- Witness for C10 at the concrete anchor with an empty href. -/
theorem empty_href_lookup_throws_witness :
    getAttr [("href", "")] "href" = some "" ∧
    handleProxy needsTranslationNLLB (fun s => s) "https://e.com" "fr"
        (fun _ => ⟨[], [], [.elem "a" [("href", "")] []]⟩)
        ⟨200, some "text/html", "page"⟩ =
      .proxyError .typeErrorUndefined :=
  ⟨rfl,
    (empty_href_lookup_throws "https://e.com" "fr" (fun s => s) [("href", "")]
      "page" rfl rfl rfl).2⟩

/-- C1: when the declared page language equals the requested target
language under the loose-match policy (the comparison is against the
primary subtag of the target code, `targetLang.split('_')[0]`), the
translation walk is skipped entirely: the served document keeps the
html attributes, every text node of head and body, and the whole tree
shape; only attribute values (link rewriting and form-method forcing)
may differ. -/
theorem skip_translation_when_lang_matches
    (engine : String → String) (origin targetLang : String) (doc out : Doc)
    (hlang : pageLangOf doc = String.mk ((splitOnChar '_' targetLang.data).headD []))
    (h : processHtml needsTranslationNLLB engine origin targetLang doc = .ok out) :
    out.htmlAttrs = doc.htmlAttrs ∧
    allTexts out.headChildren = allTexts doc.headChildren ∧
    allTexts out.bodyChildren = allTexts doc.bodyChildren ∧
    shapeList out.headChildren = shapeList doc.headChildren ∧
    shapeList out.bodyChildren = shapeList doc.bodyChildren := by
  have hcmp : needsTranslationNLLB (pageLangOf doc) targetLang = false := by
    unfold needsTranslationNLLB
    rw [hlang]
    simp
  unfold processHtml at h
  dsimp only at h
  rw [hcmp] at h
  rw [if_neg Bool.false_ne_true] at h
  cases hh : rewriteList origin targetLang doc.headChildren with
  | error e =>
      rw [hh] at h
      cases h
  | ok head2 =>
      rw [hh] at h
      cases hb : rewriteList origin targetLang doc.bodyChildren with
      | error e =>
          rw [hb] at h
          cases h
      | ok body2 =>
          rw [hb] at h
          injection h with h
          subst h
          obtain ⟨ht1, hs1⟩ := rewriteList_preserves origin targetLang _ _ hh
          obtain ⟨ht2, hs2⟩ := rewriteList_preserves origin targetLang _ _ hb
          obtain ⟨ft1, fs1⟩ := forcePostList_preserves head2
          obtain ⟨ft2, fs2⟩ := forcePostList_preserves body2
          exact ⟨rfl, ft1.trans ht1, ft2.trans ht2, fs1.trans hs1, fs2.trans hs2⟩

/-- Witness for C1: a page declaring lang fra requested at target
fra_Latn passes through with its body text intact. -/
theorem skip_translation_when_lang_matches_witness :
    pageLangOf ⟨[("lang", "fra")], [], [.elem "p" [] [.text "Bonjour"]]⟩ =
      String.mk ((splitOnChar '_' ("fra_Latn".data)).headD []) ∧
    processHtml needsTranslationNLLB (fun _ => "XX") "https://e.com" "fra_Latn"
        ⟨[("lang", "fra")], [], [.elem "p" [] [.text "Bonjour"]]⟩ =
      .ok ⟨[("lang", "fra")], [], [.elem "p" [] [.text "Bonjour"]]⟩ ∧
    allTexts (Doc.bodyChildren
        ⟨[("lang", "fra")], [], [.elem "p" [] [.text "Bonjour"]]⟩) =
      allTexts [DNode.elem "p" [] [.text "Bonjour"]] :=
  ⟨rfl, rfl,
    (skip_translation_when_lang_matches (fun _ => "XX") "https://e.com" "fra_Latn"
      ⟨[("lang", "fra")], [], [.elem "p" [] [.text "Bonjour"]]⟩
      ⟨[("lang", "fra")], [], [.elem "p" [] [.text "Bonjour"]]⟩ rfl rfl).2.2.1⟩

/-- C2 counterexample: on a page whose language (en) differs from the
target (fr), a non-empty text node that is a direct child of body is
not replaced with the engine output: `$('body').find('*').contents()`
only visits children of elements strictly below body, so the text
"hello" survives while the claim requires it to become the engine
output "X". -/
theorem body_direct_text_not_replaced :
    processHtml needsTranslationNLLB (fun _ => "X") "https://e.com" "fr"
        ⟨[("lang", "en")], [], [.text "hello", .elem "p" [] [.text "world"]]⟩ =
      .ok ⟨[("lang", "en")], [], [.text "hello", .elem "p" [] [.text "X"]]⟩ ∧
    ¬("hello" = "X") :=
  ⟨rfl, by decide⟩

/-- C2 amended: when the declared page language differs from the target
under the loose match, every text node with non-empty trimmed data that
is the child of an element strictly below body is replaced in place
with the engine output for its data; text children of body itself and
whitespace-only nodes are unchanged; the count, document order and tree
shape of the nodes are unchanged (no insertion or deletion). -/
theorem translate_walk_replaces_texts_below_body
    (engine : String → String) (origin targetLang : String) (doc out : Doc)
    (hneq : needsTranslationNLLB (pageLangOf doc) targetLang = true)
    (h : processHtml needsTranslationNLLB engine origin targetLang doc = .ok out) :
    shapeList out.bodyChildren = shapeList doc.bodyChildren ∧
    shapeList out.headChildren = shapeList doc.headChildren ∧
    allTexts out.bodyChildren =
      (taggedTexts false doc.bodyChildren).map
        (fun p => if p.2 then engine p.1 else p.1) := by
  unfold processHtml at h
  dsimp only at h
  rw [hneq] at h
  rw [if_pos rfl] at h
  cases hh : rewriteList origin targetLang doc.headChildren with
  | error e =>
      rw [hh] at h
      cases h
  | ok head2 =>
      rw [hh] at h
      cases hb : rewriteList origin targetLang (translateBody engine doc.bodyChildren) with
      | error e =>
          rw [hb] at h
          cases h
      | ok body2 =>
          rw [hb] at h
          injection h with h
          subst h
          obtain ⟨ht1, hs1⟩ := rewriteList_preserves origin targetLang _ _ hh
          obtain ⟨ht2, hs2⟩ := rewriteList_preserves origin targetLang _ _ hb
          obtain ⟨ft1, fs1⟩ := forcePostList_preserves head2
          obtain ⟨ft2, fs2⟩ := forcePostList_preserves body2
          refine ⟨?_, fs1.trans hs1, ?_⟩
          · show shapeList (forcePostList body2) = shapeList doc.bodyChildren
            rw [fs2, hs2, shapeList_translateBody]
          · show allTexts (forcePostList body2) = _
            rw [ft2, ht2, allTexts_translateBody]

/-- Witness for the C2 amended theorem: on an en page at target fr, the
text below the p element becomes engine output while the
whitespace-only direct body text survives. -/
theorem translate_walk_replaces_texts_below_body_witness :
    needsTranslationNLLB
      (pageLangOf ⟨[("lang", "en")], [], [.text " ", .elem "p" [] [.text "world"]]⟩)
      "fr" = true ∧
    allTexts (Doc.bodyChildren
        ⟨[("lang", "en")], [], [.text " ", .elem "p" [] [.text "world!"]]⟩) =
      (taggedTexts false [DNode.text " ", .elem "p" [] [.text "world"]]).map
        (fun p => if p.2 then p.1 ++ "!" else p.1) :=
  ⟨by decide,
    (translate_walk_replaces_texts_below_body (fun s => s ++ "!") "https://e.com"
      "fr" ⟨[("lang", "en")], [], [.text " ", .elem "p" [] [.text "world"]]⟩
      ⟨[("lang", "en")], [], [.text " ", .elem "p" [] [.text "world!"]]⟩
      (by decide) rfl).2.2⟩

/-- C3 counterexample: the text inside a script element under body is
submitted to the engine and overwritten: the walker matches every
element below body, script and style included, and script content is a
text node in the parsed tree. -/
theorem script_text_translated :
    processHtml needsTranslationNLLB (fun _ => "X") "https://e.com" "fr"
        ⟨[("lang", "en")], [], [.elem "script" [] [.text "var x = 1;"]]⟩ =
      .ok ⟨[("lang", "en")], [], [.elem "script" [] [.text "X"]]⟩ ∧
    ¬("X" = "var x = 1;") :=
  ⟨rfl, by decide⟩

/-- C3 amended: text inside head is indeed never translated (the walk
is rooted at body, and the link rewriter only touches attributes), but
script and style elements under body are not exempt: their text is
collected and overwritten like any other non-empty text node. The
theorem states the head part; the script part is the preceding
counterexample. -/
theorem head_texts_unchanged
    (cmp : String → String → Bool) (engine : String → String)
    (origin targetLang : String) (doc out : Doc)
    (h : processHtml cmp engine origin targetLang doc = .ok out) :
    allTexts out.headChildren = allTexts doc.headChildren := by
  unfold processHtml at h
  dsimp only at h
  cases hh : rewriteList origin targetLang doc.headChildren with
  | error e =>
      rw [hh] at h
      cases h
  | ok head2 =>
      rw [hh] at h
      cases hb : rewriteList origin targetLang
          (if cmp (pageLangOf doc) targetLang = true then
            translateBody engine doc.bodyChildren
          else doc.bodyChildren) with
      | error e =>
          rw [hb] at h
          cases h
      | ok body2 =>
          rw [hb] at h
          injection h with h
          subst h
          exact (forcePostList_preserves head2).1.trans
            (rewriteList_preserves origin targetLang _ _ hh).1

/-- Witness for the C3 amended theorem: a head title survives the
pipeline on a page that is otherwise translated. -/
theorem head_texts_unchanged_witness :
    processHtml needsTranslationNLLB (fun _ => "X") "https://e.com" "fr"
        ⟨[("lang", "en")], [.elem "title" [] [.text "Shop"]],
          [.elem "p" [] [.text "hi"]]⟩ =
      .ok ⟨[("lang", "en")], [.elem "title" [] [.text "Shop"]],
          [.elem "p" [] [.text "X"]]⟩ ∧
    allTexts (Doc.headChildren
        ⟨[("lang", "en")], [.elem "title" [] [.text "Shop"]],
          [.elem "p" [] [.text "X"]]⟩) =
      allTexts [DNode.elem "title" [] [.text "Shop"]] :=
  ⟨rfl,
    head_texts_unchanged needsTranslationNLLB (fun _ => "X") "https://e.com" "fr"
      ⟨[("lang", "en")], [.elem "title" [] [.text "Shop"]],
        [.elem "p" [] [.text "hi"]]⟩
      ⟨[("lang", "en")], [.elem "title" [] [.text "Shop"]],
        [.elem "p" [] [.text "X"]]⟩ rfl⟩
theorem directTexts_append (xs ys : List DNode) :
    directTexts (xs ++ ys) = directTexts xs ++ directTexts ys := by
  simp [directTexts, List.filterMap_append]

theorem directTexts_elem_cons (t : String) (a : List (String × String))
    (cs rest : List DNode) :
    directTexts (.elem t a cs :: rest) = directTexts rest := by
  simp [directTexts]

theorem collectTexts_text_cons (s : String) (rest : List DNode) :
    collectTexts (.text s :: rest) = collectTexts rest := by
  unfold collectTexts
  rw [findStar]

theorem collectTexts_elem_cons (t : String) (a : List (String × String))
    (cs rest : List DNode) :
    collectTexts (.elem t a cs :: rest) =
      directTexts cs ++ collectTexts cs ++ collectTexts rest := by
  unfold collectTexts
  rw [findStar, List.flatMap_cons, List.flatMap_append]
  rw [show childrenOf (.elem t a cs) = cs from rfl]
  rw [directTexts_append, directTexts_append]
  simp [List.append_assoc]

/-! The two lemmas below tie the `taggedTexts` instrument used by the
claim theorems to the literal collection phase of the source,
`$('body').find('*').contents()` filtered by
`this.type === 'text' && this.data.trim()`: the texts that
`taggedTexts` flags are exactly the collected ones. The collection
groups text nodes by parent element, which for nested markup can differ
from document order, so the statement is a permutation. -/

mutual

theorem taggedTexts_true_perm (ns : List DNode) :
    List.Perm (((taggedTexts true ns).filter (fun p => p.2)).map (fun p => p.1))
      (directTexts ns ++ collectTexts ns) := by
  cases ns with
  | nil =>
      rw [taggedTexts]
      simp [directTexts, collectTexts, findStar]
      
  | cons n rest =>
      cases n with
      | text s =>
          rw [taggedTexts, collectTexts_text_cons]
          apply List.perm_iff_count.mpr
          intro x
          have hc := (taggedTexts_true_perm rest).count_eq x
          by_cases h : jsTrim s ≠ ""
          · by_cases hx : x = s
            · simp [h, hx, directTexts, List.count_append, List.count_cons] at *
              omega
            · simp [h, hx, directTexts, List.count_append, List.count_cons] at *
              omega
          · simp [h, directTexts, List.count_append] at *
            omega
      | elem t a cs =>
          rw [taggedTexts, collectTexts_elem_cons, directTexts_elem_cons]
          apply List.perm_iff_count.mpr
          intro x
          have hc1 := (taggedTexts_true_perm cs).count_eq x
          have hc2 := (taggedTexts_true_perm rest).count_eq x
          simp only [List.filter_append, List.map_append, List.count_append] at *
          omega

theorem taggedTexts_false_perm (ns : List DNode) :
    List.Perm (((taggedTexts false ns).filter (fun p => p.2)).map (fun p => p.1))
      (collectTexts ns) := by
  cases ns with
  | nil =>
      rw [taggedTexts]
      simp [directTexts, collectTexts, findStar]
  | cons n rest =>
      cases n with
      | text s =>
          rw [taggedTexts, collectTexts_text_cons]
          apply List.perm_iff_count.mpr
          intro x
          have hc := (taggedTexts_false_perm rest).count_eq x
          simp [List.count_append] at *
          omega
      | elem t a cs =>
          rw [taggedTexts, collectTexts_elem_cons]
          apply List.perm_iff_count.mpr
          intro x
          have hc1 := (taggedTexts_true_perm cs).count_eq x
          have hc2 := (taggedTexts_false_perm rest).count_eq x
          simp only [List.filter_append, List.map_append, List.count_append] at *
          omega

end

end TranslationProxy
